import Mathlib

/-!
Verification of the Groth16 proof-format adapter (`bonsai/groth16/src/lib.rs`
of the risc0 repository) against its natural-language specification.

Bytes are modelled as `Nat` values (< 256 where it matters), byte buffers as
`List Nat`, Rust strings as `List Char`, and `Result<T, anyhow::Error>` as
`Except String T` carrying the error message.  External collaborators
(the ark pairing-curve library's point deserializers, the prepared verifying
key, `prepare_inputs`, canonical serialization and the SHA-256 compression
function) are parameters of the embedding, as the specification places them
out of scope.
-/

set_option maxRecDepth 10000

namespace RiscZeroGroth16

/-! ## Byte-buffer numeric value -/

/-- Value of a byte buffer read little-endian (first byte least significant). -/
def leNat : List Nat → Nat
  | [] => 0
  | b :: rest => b + 256 * leNat rest

/-- Horner accumulator for the big-endian value of a byte buffer. -/
def beNatAux : Nat → List Nat → Nat
  | acc, [] => acc
  | acc, b :: rest => beNatAux (256 * acc + b) rest

/-- Value of a byte buffer read big-endian (first byte most significant). -/
def beNat (l : List Nat) : Nat := beNatAux 0 l

/-- Big-endian byte representation of `v` on exactly `w` bytes
(models `U256::to_big_endian` for `w = 32`). -/
def toBEBytes : Nat → Nat → List Nat
  | 0, _ => []
  | w + 1, v => toBEBytes w (v / 256) ++ [v % 256]

/-! ## Hex encoding and decoding (models the `hex` crate) -/

/-- Lowercase hex digit character of a value `< 16` (models `hex::encode`). -/
def hexChar (n : Nat) : Char :=
  if n < 10 then Char.ofNat (48 + n) else Char.ofNat (87 + n)

/-- `hex::encode`: each byte becomes two lowercase hex characters. -/
def hexEncode (bytes : List Nat) : List Char :=
  bytes.flatMap (fun b => [hexChar (b / 16), hexChar (b % 16)])

/-- Value of one hex digit character, upper- or lowercase. -/
def hexDigitVal (c : Char) : Option Nat :=
  if 48 ≤ c.toNat ∧ c.toNat ≤ 57 then some (c.toNat - 48)
  else if 97 ≤ c.toNat ∧ c.toNat ≤ 102 then some (c.toNat - 87)
  else if 65 ≤ c.toNat ∧ c.toNat ≤ 70 then some (c.toNat - 55)
  else none

/-- Value of one decimal digit character. -/
def decDigitVal (c : Char) : Option Nat :=
  if 48 ≤ c.toNat ∧ c.toNat ≤ 57 then some (c.toNat - 48) else none

/-- `hex::FromHex` for byte arrays: pairs of hex digits to bytes. -/
def hexDecode : List Char → Option (List Nat)
  | [] => some []
  | c1 :: c2 :: rest =>
    match hexDigitVal c1, hexDigitVal c2 with
    | some hi, some lo => (hexDecode rest).map (fun t => (16 * hi + lo) :: t)
    | _, _ => none
  | [_] => none

/-- `<[u8; 32]>::from_hex`: exactly 64 hex characters decoding to 32 bytes. -/
def digestFromHex (s : List Char) : Except String (List Nat) :=
  match hexDecode s with
  | some bytes => if bytes.length = 32 then .ok bytes else .error "Invalid string length"
  | none => .error "Invalid character"

/-! ## 256-bit integer parsing (models `ethereum_types::U256`) -/

/-- Left-to-right digit accumulation; `none` on the first invalid digit. -/
def digitsValAux (digitVal : Char → Option Nat) (radix : Nat) :
    Nat → List Char → Option Nat
  | acc, [] => some acc
  | acc, c :: cs =>
    match digitVal c with
    | none => none
    | some d => digitsValAux digitVal radix (radix * acc + d) cs

/-- Models `U256` string parsing: digit accumulation followed by the
256-bit overflow check (`U256` rejects values `≥ 2^256`). -/
def parseNum (digitVal : Char → Option Nat) (radix : Nat) (s : List Char) :
    Option Nat :=
  match digitsValAux digitVal radix 0 s with
  | none => none
  | some v => if v < 2 ^ 256 then some v else none

/-- `from_u256` (lib.rs:231): a `0x`-prefixed string parses as hex via
`U256::from_str_radix(_, 16)` (which strips the prefix), any other string
parses as decimal via `U256::from_dec_str`; the value is emitted as its
32-byte big-endian representation (`to_big_endian`).  All parse failures
carry the `anyhow` context string `"Invalid number"`. -/
def from_u256 (value : List Char) : Except String (List Nat) :=
  match
    (if value.take 2 = ['0', 'x'] then
      parseNum hexDigitVal 16 (value.drop 2)
    else
      parseNum decDigitVal 10 value) with
  | none => .error "Invalid number"
  | some v => .ok (toBEBytes 32 v)

/-! ## BN254 scalar field -/

/-- The BN254 scalar-field modulus (ark `Fr`). -/
def frMod : Nat :=
  21888242871839275222246405745257275088548364400416034343698204186575808495617

/-- A BN254 scalar-field element, as its canonical integer value. -/
abbrev Fr := Fin frMod

/-- Models ark's `Fr::deserialize_uncompressed`: read 32 little-endian bytes,
reject a value that is not below the modulus. -/
def fr_deserialize (bytes : List Nat) : Except String Fr :=
  if 32 ≤ bytes.length then
    if h : leNat (bytes.take 32) < frMod then .ok ⟨leNat (bytes.take 32), h⟩
    else .error "invalid data"
  else .error "unexpected end of buffer"

/-- `fr_from_bytes` (lib.rs:193): reverse the big-endian input and
deserialize the little-endian result. -/
def fr_from_bytes (scalar : List Nat) : Except String Fr :=
  fr_deserialize scalar.reverse

/-- `split_digest` (lib.rs:243): reverse the digest, split at the midpoint,
hex-encode each half with a `0x` prefix, and push each through
`from_u256` then `fr_from_bytes`. -/
def split_digest (d : List Nat) : Except String (Fr × Fr) :=
  let big_endian := d.reverse
  let middle := big_endian.length / 2
  let a := big_endian.take middle
  let b := big_endian.drop middle
  match from_u256 ('0' :: 'x' :: hexEncode a) with
  | .error e => .error e
  | .ok abytes =>
    match fr_from_bytes abytes with
    | .error e => .error e
    | .ok x =>
      match from_u256 ('0' :: 'x' :: hexEncode b) with
      | .error e => .error e
      | .ok bbytes =>
        match fr_from_bytes bbytes with
        | .error e => .error e
        | .ok y => .ok (x, y)

/-! ## Curve-point decoders (buffer assembly; deserialization is external) -/

/-- `g1_from_bytes` (lib.rs:199): require exactly 2 coordinate arrays, then
deserialize the buffer built from the byte-reversed coordinates in order.
The deserializer itself (ark `G1Affine::deserialize_uncompressed`) is an
external collaborator, passed as `deser`. -/
def g1_from_bytes {G1 : Type} (deser : List Nat → Except String G1)
    (elem : List (List Nat)) : Except String G1 :=
  if elem.length ≠ 2 then .error "Malformed G1 field element"
  else deser ((elem.getD 0 []).reverse ++ (elem.getD 1 []).reverse)

/-- `g2_from_bytes` (lib.rs:214): require a 2×2 nesting, then deserialize the
buffer built from the byte-reversed coordinates with the inner index order
swapped (`[0][1], [0][0], [1][1], [1][0]`). -/
def g2_from_bytes {G2 : Type} (deser : List Nat → Except String G2)
    (elem : List (List (List Nat))) : Except String G2 :=
  if elem.length ≠ 2 ∨ (elem.getD 0 []).length ≠ 2 ∨ (elem.getD 1 []).length ≠ 2 then
    .error "Malformed G2 field element"
  else
    deser (((elem.getD 0 []).getD 1 []).reverse ++ ((elem.getD 0 []).getD 0 []).reverse
      ++ ((elem.getD 1 []).getD 1 []).reverse ++ ((elem.getD 1 []).getD 0 []).reverse)

/-! ## Seal and raw-proof structures -/

/-- `Groth16Seal` (lib.rs:43): snarkjs-calldata-style proof with big-endian
coordinate byte arrays. -/
structure Groth16Seal where
  a : List (List Nat)
  b : List (List (List Nat))
  c : List (List Nat)
  public : List (List Nat)
deriving DecidableEq, Repr

/-- Modelled from the spec: `RawProof` lives in the repository's `raw`
module, which is not part of the sources given; per §3 of the specification
it carries decimal or `0x`-hex strings nested in the same shape as the
seal's fields (`pi_a`, `pi_b`, `pi_c`), which matches every use the main
module makes of it. -/
structure RawProof where
  pi_a : List (List Char)
  pi_b : List (List (List Char))
  pi_c : List (List Char)
deriving DecidableEq, Repr

/-- `TryFrom<RawProof> for Groth16Seal` (lib.rs:54): length-check and parse
`pi_a`, then `pi_b` (inner index order swapped), then `pi_c`; the `public`
field is left empty. -/
def Groth16Seal.try_from (raw_proof : RawProof) : Except String Groth16Seal :=
  if raw_proof.pi_a.length < 2 then .error "Malformed G1 element field"
  else
    match from_u256 (raw_proof.pi_a.getD 0 []) with
    | .error e => .error e
    | .ok a0 =>
      match from_u256 (raw_proof.pi_a.getD 1 []) with
      | .error e => .error e
      | .ok a1 =>
        if raw_proof.pi_b.length < 2 ∨ (raw_proof.pi_b.getD 0 []).length < 2
            ∨ (raw_proof.pi_b.getD 1 []).length < 2 then
          .error "Malformed G2 element field"
        else
          match from_u256 ((raw_proof.pi_b.getD 0 []).getD 1 []) with
          | .error e => .error e
          | .ok b01 =>
            match from_u256 ((raw_proof.pi_b.getD 0 []).getD 0 []) with
            | .error e => .error e
            | .ok b00 =>
              match from_u256 ((raw_proof.pi_b.getD 1 []).getD 1 []) with
              | .error e => .error e
              | .ok b11 =>
                match from_u256 ((raw_proof.pi_b.getD 1 []).getD 0 []) with
                | .error e => .error e
                | .ok b10 =>
                  if raw_proof.pi_c.length < 2 then .error "Malformed G1 element field"
                  else
                    match from_u256 (raw_proof.pi_c.getD 0 []) with
                    | .error e => .error e
                    | .ok c0 =>
                      match from_u256 (raw_proof.pi_c.getD 1 []) with
                      | .error e => .error e
                      | .ok c1 =>
                        .ok { a := [a0, a1], b := [[b01, b00], [b11, b10]],
                              c := [c0, c1], public := [] }

/-- Restriction of a raw proof to the entries the conversion actually reads
(indices 0 and 1 of each list). -/
def RawProof.truncate2 (raw : RawProof) : RawProof :=
  { pi_a := raw.pi_a.take 2
    pi_b := (raw.pi_b.take 2).map (fun l => l.take 2)
    pi_c := raw.pi_c.take 2 }

/-! ## The Groth16 instance -/

/-- `Groth16` (lib.rs:98): three opaque serialized buffers. -/
structure Groth16 where
  pvk : List Nat
  proof : List Nat
  prepared_inputs : List Nat
deriving DecidableEq, Repr

/-- The external ark collaborators used by `from_seal`, abstracted: the fixed
prepared verifying key (`pvk()`), the point deserializers, canonical
uncompressed serialization of the key, the proof and the prepared-input
point, and `Groth16::prepare_inputs`. -/
structure ArkEnv (G1 G2 PVK Prep : Type) where
  pvk : Except String PVK
  serialize_pvk : PVK → List Nat
  g1_deserialize : List Nat → Except String G1
  g2_deserialize : List Nat → Except String G2
  serialize_proof : G1 → G2 → G1 → List Nat
  prepare_inputs : PVK → List Fr → Except String Prep
  serialize_prepared : Prep → List Nat

/-- The embedded constant `ALLOWED_IDS_ROOT` (lib.rs:33). -/
def ALLOWED_IDS_ROOT : String :=
  "b32a0567a799174e9f49dc3d8b2de4683192d345045b5828a0e045164f680238"

/-- `Groth16::from_seal` (lib.rs:107): serialize the fixed prepared key,
decode and serialize the proof points, split the allowed-IDs root and the
receipt metadata digest, assemble the public-input vector `[c2, c1, m2, m1]`,
prepare the inputs and serialize them. -/
def Groth16.from_seal {G1 G2 PVK Prep : Type} (E : ArkEnv G1 G2 PVK Prep)
    (groth16_seal : Groth16Seal) (receipt_meta : List Nat) :
    Except String Groth16 :=
  match E.pvk with
  | .error e => .error e
  | .ok public_key_verification =>
    match g1_from_bytes E.g1_deserialize groth16_seal.a with
    | .error e => .error e
    | .ok pa =>
      match g2_from_bytes E.g2_deserialize groth16_seal.b with
      | .error e => .error e
      | .ok pb =>
        match g1_from_bytes E.g1_deserialize groth16_seal.c with
        | .error e => .error e
        | .ok pc =>
          match digestFromHex ALLOWED_IDS_ROOT.toList with
          | .error e => .error e
          | .ok root =>
            match split_digest root with
            | .error e => .error e
            | .ok (c1, c2) =>
              match split_digest receipt_meta with
              | .error e => .error e
              | .ok (m1, m2) =>
                match E.prepare_inputs public_key_verification [c2, c1, m2, m1] with
                | .error e => .error e
                | .ok prepared =>
                  .ok { pvk := E.serialize_pvk public_key_verification
                        proof := E.serialize_proof pa pb pc
                        prepared_inputs := E.serialize_prepared prepared }

/-! ## SHA-256 streaming model (the compression primitive is external) -/

/-- A SHA-256 output: 32 bytes. -/
abbrev Sha256Out := { l : List Nat // l.length = 32 }

/-- Streaming hasher state, as the bytes fed so far (models
`sha2::Sha256::new` / `update`). -/
structure Sha256Hasher where
  fed : List Nat
deriving DecidableEq

/-- `sha2::Sha256::new()`. -/
def Sha256Hasher.new : Sha256Hasher := ⟨[]⟩

/-- `hasher.update(data)`: append the bytes. -/
def Sha256Hasher.update (h : Sha256Hasher) (data : List Nat) : Sha256Hasher :=
  ⟨h.fed ++ data⟩

/-- `hasher.finalize()`: apply the (external) SHA-256 function `H` to
everything fed. -/
def Sha256Hasher.finalize (H : List Nat → Sha256Out) (h : Sha256Hasher) :
    List Nat :=
  (H h.fed).val

/-- `Groth16::digest` (lib.rs:183): hash `pvk`, `proof` and
`prepared_inputs` in that order through a streaming SHA-256. -/
def Groth16.digest (H : List Nat → Sha256Out) (g : Groth16) : List Nat :=
  Sha256Hasher.finalize H
    (((Sha256Hasher.new.update g.pvk).update g.proof).update g.prepared_inputs)

/-- A trivial instantiation of the external collaborators, used to exercise
the embedding on concrete inputs. -/
def trivialEnv : ArkEnv Unit Unit Unit Unit where
  pvk := .ok ()
  serialize_pvk := fun _ => []
  g1_deserialize := fun _ => .ok ()
  g2_deserialize := fun _ => .ok ()
  serialize_proof := fun _ _ _ => []
  prepare_inputs := fun _ _ => .ok ()
  serialize_prepared := fun _ => []

/-- A structurally well-formed seal with empty coordinate arrays. -/
def sealTriv : Groth16Seal :=
  { a := [[], []], b := [[[], []], [[], []]], c := [[], []], public := [] }

/-- A raw proof with exactly two entries per list. -/
def rawW : RawProof :=
  { pi_a := [['1'], ['2']]
    pi_b := [[['3'], ['4']], [['5'], ['6']]]
    pi_c := [['7'], ['8']] }

/-- A raw proof whose `pi_a` has fewer than 2 entries. -/
def rawBad : RawProof := { pi_a := [['1']], pi_b := [], pi_c := [] }

/-- A raw proof with extra third entries in every list. -/
def rawExtra : RawProof :=
  { pi_a := [['1'], ['2'], ['9']]
    pi_b := [[['3'], ['4'], ['9']], [['5'], ['6'], ['9']], [['9']]]
    pi_c := [['7'], ['8'], ['9']] }

/-- The seal `rawExtra` converts to. -/
def sealExtra : Groth16Seal :=
  { a := [toBEBytes 32 1, toBEBytes 32 2]
    b := [[toBEBytes 32 4, toBEBytes 32 3], [toBEBytes 32 6, toBEBytes 32 5]]
    c := [toBEBytes 32 7, toBEBytes 32 8]
    public := [] }

/-! ## Encoding lemmas -/

theorem leNat_append (xs ys : List Nat) :
    leNat (xs ++ ys) = leNat xs + 256 ^ xs.length * leNat ys := by
  induction xs with
  | nil => simp [leNat]
  | cons b t ih =>
    show b + 256 * leNat (t ++ ys) = (b + 256 * leNat t) + 256 ^ (t.length + 1) * leNat ys
    rw [ih, pow_succ]; ring

theorem beNatAux_eq (l : List Nat) : ∀ acc, beNatAux acc l = acc * 256 ^ l.length + beNat l := by
  induction l with
  | nil => intro acc; simp [beNatAux, beNat]
  | cons b t ih =>
    intro acc
    show beNatAux (256 * acc + b) t = acc * 256 ^ (t.length + 1) + beNat (b :: t)
    have hb : beNat (b :: t) = beNatAux b t := by
      show beNatAux (256 * 0 + b) t = beNatAux b t
      norm_num
    rw [ih, hb, ih b, pow_succ]; ring

theorem leNat_reverse (l : List Nat) : leNat l.reverse = beNat l := by
  induction l with
  | nil => rfl
  | cons b t ih =>
    rw [List.reverse_cons, leNat_append, ih]
    have hb : beNat (b :: t) = beNatAux b t := by
      show beNatAux (256 * 0 + b) t = beNatAux b t
      norm_num
    rw [hb, beNatAux_eq t b, List.length_reverse]
    simp [leNat]
    ring

theorem toBEBytes_length (w : Nat) : ∀ v, (toBEBytes w v).length = w := by
  induction w with
  | zero => intro v; rfl
  | succ w ih => intro v; simp [toBEBytes, ih]

theorem leNat_toBEBytes_reverse (w : Nat) :
    ∀ v, leNat (toBEBytes w v).reverse = v % 2 ^ (8 * w) := by
  induction w with
  | zero => intro v; simp [toBEBytes, leNat, Nat.mod_one]
  | succ w ih =>
    intro v
    have hpow : 256 * 2 ^ (8 * w) = 2 ^ (8 * (w + 1)) := by
      have h256 : (256 : Nat) = 2 ^ 8 := by norm_num
      rw [h256, ← pow_add]
      congr 1
      omega
    rw [toBEBytes, List.reverse_append]
    show leNat (v % 256 :: (toBEBytes w (v / 256)).reverse) = v % 2 ^ (8 * (w + 1))
    rw [leNat, ih]
    rw [← hpow, ← Nat.mod_mul]

theorem beNat_toBEBytes (w v : Nat) (h : v < 2 ^ (8 * w)) :
    beNat (toBEBytes w v) = v := by
  rw [← leNat_reverse, leNat_toBEBytes_reverse, Nat.mod_eq_of_lt h]

theorem beNatAux_lt (l : List Nat) (h : ∀ b ∈ l, b < 256) :
    ∀ acc, beNatAux acc l < (acc + 1) * 256 ^ l.length := by
  induction l with
  | nil => intro acc; simp [beNatAux]
  | cons b t ih =>
    intro acc
    have hb : b < 256 := h b (by simp)
    have ht : ∀ x ∈ t, x < 256 := fun x hx => h x (List.mem_cons_of_mem _ hx)
    have h1 := ih ht (256 * acc + b)
    have h2 : (256 * acc + b + 1) * 256 ^ t.length ≤ (acc + 1) * 256 ^ (t.length + 1) := by
      rw [pow_succ]
      have h3 : 256 * acc + b + 1 ≤ (acc + 1) * 256 := by omega
      calc (256 * acc + b + 1) * 256 ^ t.length
          ≤ ((acc + 1) * 256) * 256 ^ t.length := Nat.mul_le_mul_right _ h3
        _ = (acc + 1) * (256 ^ t.length * 256) := by ring
    show beNatAux (256 * acc + b) t < (acc + 1) * 256 ^ (t.length + 1)
    exact lt_of_lt_of_le h1 h2

theorem beNat_lt (l : List Nat) (h : ∀ b ∈ l, b < 256) :
    beNat l < 256 ^ l.length := by
  have := beNatAux_lt l h 0
  simpa [beNat] using this

theorem hexDigitVal_hexChar : ∀ n < 16, hexDigitVal (hexChar n) = some n := by decide

theorem digitsValAux_hexEncode (a : List Nat) (h : ∀ b ∈ a, b < 256) :
    ∀ acc, digitsValAux hexDigitVal 16 acc (hexEncode a) = some (beNatAux acc a) := by
  induction a with
  | nil => intro acc; rfl
  | cons b t ih =>
    intro acc
    have hb : b < 256 := h b (by simp)
    have hhi : hexDigitVal (hexChar (b / 16)) = some (b / 16) :=
      hexDigitVal_hexChar _ (by omega)
    have hlo : hexDigitVal (hexChar (b % 16)) = some (b % 16) :=
      hexDigitVal_hexChar _ (by omega)
    have ht : ∀ x ∈ t, x < 256 := fun x hx => h x (List.mem_cons_of_mem _ hx)
    show digitsValAux hexDigitVal 16 acc
      (hexChar (b / 16) :: hexChar (b % 16) :: hexEncode t) = some (beNatAux acc (b :: t))
    have step : digitsValAux hexDigitVal 16 acc
        (hexChar (b / 16) :: hexChar (b % 16) :: hexEncode t)
        = digitsValAux hexDigitVal 16 (16 * (16 * acc + b / 16) + b % 16) (hexEncode t) := by
      simp [digitsValAux, hhi, hlo]
    rw [step, ih ht]
    have harith : 16 * (16 * acc + b / 16) + b % 16 = 256 * acc + b := by omega
    rw [harith]
    rfl

theorem digitsValAux_none (dv : Char → Option Nat) (r : Nat) (s : List Char)
    (h : ∃ c ∈ s, dv c = none) : ∀ acc, digitsValAux dv r acc s = none := by
  induction s with
  | nil => simp at h
  | cons c cs ih =>
    intro acc
    rcases h with ⟨x, hx, hnone⟩
    rcases List.mem_cons.mp hx with rfl | hmem
    · simp [digitsValAux, hnone]
    · cases hdv : dv c with
      | none => simp [digitsValAux, hdv]
      | some d =>
        simp only [digitsValAux, hdv]
        exact ih ⟨x, hmem, hnone⟩ _

theorem from_u256_hexEncode (a : List Nat) (h : ∀ b ∈ a, b < 256)
    (hlen : a.length ≤ 32) :
    from_u256 ('0' :: 'x' :: hexEncode a) = .ok (toBEBytes 32 (beNat a)) := by
  have hval : beNat a < 2 ^ 256 := by
    have h1 := beNat_lt a h
    have h2 : (256 : Nat) ^ a.length ≤ 256 ^ 32 := Nat.pow_le_pow_right (by norm_num) hlen
    have h3 : (256 : Nat) ^ 32 = 2 ^ 256 := by norm_num
    omega
  have hparse := digitsValAux_hexEncode a h 0
  have hp : parseNum hexDigitVal 16 (hexEncode a) = some (beNat a) := by
    unfold parseNum
    rw [hparse]
    show (if beNatAux 0 a < 2 ^ 256 then some (beNatAux 0 a) else none) = some (beNat a)
    have hval2 : beNatAux 0 a < 2 ^ 256 := hval
    rw [if_pos hval2]
    rfl
  unfold from_u256
  have htake : ('0' :: 'x' :: hexEncode a).take 2 = ['0', 'x'] := rfl
  have hdrop : ('0' :: 'x' :: hexEncode a).drop 2 = hexEncode a := rfl
  rw [htake, if_pos rfl, hdrop, hp]

theorem fr_from_bytes_toBEBytes (n : Nat) (h256 : n < 2 ^ 256) (h : n < frMod) :
    fr_from_bytes (toBEBytes 32 n) = .ok ⟨n, h⟩ := by
  unfold fr_from_bytes fr_deserialize
  have hlen : (toBEBytes 32 n).reverse.length = 32 := by
    rw [List.length_reverse, toBEBytes_length]
  have htake : (toBEBytes 32 n).reverse.take 32 = (toBEBytes 32 n).reverse :=
    List.take_of_length_le (le_of_eq hlen)
  rw [htake]
  have hle : leNat (toBEBytes 32 n).reverse = n := by
    rw [leNat_toBEBytes_reverse]
    have : 8 * 32 = 256 := by norm_num
    rw [this, Nat.mod_eq_of_lt h256]
  rw [hlen, if_pos (by norm_num), hle, dif_pos h]

theorem parseNum_none_of_invalid (dv : Char → Option Nat) (r : Nat) (s : List Char)
    (h : ∃ c ∈ s, dv c = none) : parseNum dv r s = none := by
  unfold parseNum
  rw [digitsValAux_none dv r s h 0]

theorem parseNum_some (dv : Char → Option Nat) (r : Nat) (s : List Char) (n : Nat)
    (h : digitsValAux dv r 0 s = some n) :
    parseNum dv r s = if n < 2 ^ 256 then some n else none := by
  unfold parseNum
  rw [h]

theorem split_digest_ok_core (d : List Nat) (hlen : d.length = 32)
    (hb : ∀ x ∈ d, x < 256) :
    ∃ (hx : beNat (d.reverse.take 16) < frMod) (hy : beNat (d.reverse.drop 16) < frMod),
      split_digest d =
        .ok (⟨beNat (d.reverse.take 16), hx⟩, ⟨beNat (d.reverse.drop 16), hy⟩) := by
  have hrb : ∀ x ∈ d.reverse, x < 256 := fun x hx => hb x (List.mem_reverse.mp hx)
  have hta : ∀ x ∈ d.reverse.take 16, x < 256 := fun x hx => hrb x (List.mem_of_mem_take hx)
  have htb : ∀ x ∈ d.reverse.drop 16, x < 256 := fun x hx => hrb x (List.mem_of_mem_drop hx)
  have hlena16 : (d.reverse.take 16).length = 16 := by
    rw [List.length_take, List.length_reverse, hlen]
    norm_num
  have hlenb16 : (d.reverse.drop 16).length = 16 := by
    rw [List.length_drop, List.length_reverse, hlen]
  have hva : beNat (d.reverse.take 16) < 2 ^ 128 := by
    have h1 := beNat_lt _ hta
    rw [hlena16] at h1
    have h2 : (256 : Nat) ^ 16 = 2 ^ 128 := by norm_num
    omega
  have hvb : beNat (d.reverse.drop 16) < 2 ^ 128 := by
    have h1 := beNat_lt _ htb
    rw [hlenb16] at h1
    have h2 : (256 : Nat) ^ 16 = 2 ^ 128 := by norm_num
    omega
  have hmodbound : (2 : Nat) ^ 128 < frMod := by norm_num [frMod]
  have h256bound : (2 : Nat) ^ 128 < 2 ^ 256 := by norm_num
  have hfa : beNat (d.reverse.take 16) < frMod := lt_trans hva hmodbound
  have hfb : beNat (d.reverse.drop 16) < frMod := lt_trans hvb hmodbound
  refine ⟨hfa, hfb, ?_⟩
  have hu_a := from_u256_hexEncode _ hta (by rw [hlena16]; norm_num)
  have hf_a := fr_from_bytes_toBEBytes (beNat (d.reverse.take 16)) (lt_trans hva h256bound) hfa
  have hu_b := from_u256_hexEncode _ htb (by rw [hlenb16]; norm_num)
  have hf_b := fr_from_bytes_toBEBytes (beNat (d.reverse.drop 16)) (lt_trans hvb h256bound) hfb
  have hmid : d.reverse.length / 2 = 16 := by rw [List.length_reverse, hlen]
  simp only [split_digest, hmid, hu_a, hf_a, hu_b, hf_b]

/-! ## Claim theorems: the field codec -/

/-- Claim C2: for every 32-byte digest, `split_digest` reverses the byte
order, splits the reversed buffer at the 16-byte midpoint, pushes each half
through hex re-encoding, `from_u256` and `fr_from_bytes`, and returns the
pair `(firstHalf, secondHalf)` in that production order. -/
theorem split_digest_pipeline_spec (d : List Nat) (hlen : d.length = 32) :
    split_digest d =
      (match from_u256 ('0' :: 'x' :: hexEncode (d.reverse.take 16)) with
      | .error e => .error e
      | .ok abytes =>
        match fr_from_bytes abytes with
        | .error e => .error e
        | .ok x =>
          match from_u256 ('0' :: 'x' :: hexEncode (d.reverse.drop 16)) with
          | .error e => .error e
          | .ok bbytes =>
            match fr_from_bytes bbytes with
            | .error e => .error e
            | .ok y => .ok (x, y)) := by
  have hmid : d.reverse.length / 2 = 16 := by rw [List.length_reverse, hlen]
  simp only [split_digest, hmid]

theorem split_digest_pipeline_spec_witness :
    (List.replicate 32 0).length = 32 ∧
    split_digest (List.replicate 32 0) =
      (match from_u256 ('0' :: 'x' :: hexEncode ((List.replicate 32 0).reverse.take 16)) with
      | .error e => .error e
      | .ok abytes =>
        match fr_from_bytes abytes with
        | .error e => .error e
        | .ok x =>
          match from_u256 ('0' :: 'x' :: hexEncode ((List.replicate 32 0).reverse.drop 16)) with
          | .error e => .error e
          | .ok bbytes =>
            match fr_from_bytes bbytes with
            | .error e => .error e
            | .ok y => .ok (x, y)) :=
  ⟨by decide, split_digest_pipeline_spec (List.replicate 32 0) (by decide)⟩

/-- Claim C7: for every 32-byte input, `fr_from_bytes` reverses to
little-endian order and decodes; it yields the field element whose value is
the big-endian integer of the input when that is below the scalar-field
modulus, and fails when it is not. -/
theorem fr_from_bytes_spec (b : List Nat) (hlen : b.length = 32) :
    (beNat b < frMod → ∃ x : Fr, fr_from_bytes b = .ok x ∧ x.val = beNat b) ∧
    (frMod ≤ beNat b → ∃ e, fr_from_bytes b = .error e) := by
  have hrev : b.reverse.length = 32 := by rw [List.length_reverse, hlen]
  have htake : b.reverse.take 32 = b.reverse := List.take_of_length_le (le_of_eq hrev)
  have hval : leNat (b.reverse.take 32) = beNat b := by rw [htake, leNat_reverse]
  constructor
  · intro hlt
    refine ⟨⟨beNat b, hlt⟩, ?_, rfl⟩
    unfold fr_from_bytes fr_deserialize
    rw [hrev, if_pos (by norm_num), hval, dif_pos hlt]
  · intro hge
    refine ⟨"invalid data", ?_⟩
    unfold fr_from_bytes fr_deserialize
    rw [hrev, if_pos (by norm_num), hval, dif_neg (by omega)]

theorem fr_from_bytes_spec_witness :
    ((List.replicate 32 0).length = 32 ∧ beNat (List.replicate 32 0) < frMod ∧
      ∃ x : Fr, fr_from_bytes (List.replicate 32 0) = .ok x ∧
        x.val = beNat (List.replicate 32 0)) ∧
    ((List.replicate 32 255).length = 32 ∧ frMod ≤ beNat (List.replicate 32 255) ∧
      ∃ e, fr_from_bytes (List.replicate 32 255) = .error e) :=
  ⟨⟨by decide, by decide,
      (fr_from_bytes_spec (List.replicate 32 0) (by decide)).1 (by decide)⟩,
    ⟨by decide, by decide,
      (fr_from_bytes_spec (List.replicate 32 255) (by decide)).2 (by decide)⟩⟩

/-- Claim C9: `split_digest` is total on 32-byte digests: each 16-byte half
is below `2^128`, hence below the scalar-field modulus, so the decode and
parse error branches are unreachable and the result is `Ok`. -/
theorem split_digest_total (d : List Nat) (hlen : d.length = 32)
    (hb : ∀ x ∈ d, x < 256) :
    ∃ x y : Fr, split_digest d = .ok (x, y) ∧
      x.val = beNat (d.reverse.take 16) ∧ y.val = beNat (d.reverse.drop 16) ∧
      x.val < 2 ^ 128 ∧ y.val < 2 ^ 128 := by
  obtain ⟨hx, hy, heq⟩ := split_digest_ok_core d hlen hb
  refine ⟨_, _, heq, rfl, rfl, ?_, ?_⟩
  · show beNat (d.reverse.take 16) < 2 ^ 128
    have hta : ∀ z ∈ d.reverse.take 16, z < 256 := fun z hz =>
      hb z (List.mem_reverse.mp (List.mem_of_mem_take hz))
    have h1 := beNat_lt _ hta
    have hlena16 : (d.reverse.take 16).length = 16 := by
      rw [List.length_take, List.length_reverse, hlen]
      norm_num
    rw [hlena16] at h1
    have h2 : (256 : Nat) ^ 16 = 2 ^ 128 := by norm_num
    omega
  · show beNat (d.reverse.drop 16) < 2 ^ 128
    have htb : ∀ z ∈ d.reverse.drop 16, z < 256 := fun z hz =>
      hb z (List.mem_reverse.mp (List.mem_of_mem_drop hz))
    have h1 := beNat_lt _ htb
    have hlenb16 : (d.reverse.drop 16).length = 16 := by
      rw [List.length_drop, List.length_reverse, hlen]
    rw [hlenb16] at h1
    have h2 : (256 : Nat) ^ 16 = 2 ^ 128 := by norm_num
    omega

theorem split_digest_total_witness :
    (List.replicate 32 7).length = 32 ∧ (∀ x ∈ List.replicate 32 7, x < 256) ∧
    ∃ x y : Fr, split_digest (List.replicate 32 7) = .ok (x, y) ∧
      x.val = beNat ((List.replicate 32 7).reverse.take 16) ∧
      y.val = beNat ((List.replicate 32 7).reverse.drop 16) ∧
      x.val < 2 ^ 128 ∧ y.val < 2 ^ 128 :=
  ⟨by decide, by decide,
    split_digest_total (List.replicate 32 7) (by decide) (by decide)⟩

/-- Claim C6: `from_u256` parses a decimal string, or a `0x`-prefixed string
as hexadecimal, into an unsigned 256-bit integer returned as its 32-byte
big-endian representation, and fails with the parse error when the string
contains an invalid digit or the value exceeds 256 bits. -/
theorem from_u256_spec (s : List Char) :
    (s.take 2 = ['0', 'x'] →
      ((∃ c ∈ s.drop 2, hexDigitVal c = none) → from_u256 s = .error "Invalid number") ∧
      (∀ n, digitsValAux hexDigitVal 16 0 (s.drop 2) = some n →
        (n < 2 ^ 256 → from_u256 s = .ok (toBEBytes 32 n) ∧
          (toBEBytes 32 n).length = 32 ∧ beNat (toBEBytes 32 n) = n) ∧
        (2 ^ 256 ≤ n → from_u256 s = .error "Invalid number"))) ∧
    (s.take 2 ≠ ['0', 'x'] →
      ((∃ c ∈ s, decDigitVal c = none) → from_u256 s = .error "Invalid number") ∧
      (∀ n, digitsValAux decDigitVal 10 0 s = some n →
        (n < 2 ^ 256 → from_u256 s = .ok (toBEBytes 32 n) ∧
          (toBEBytes 32 n).length = 32 ∧ beNat (toBEBytes 32 n) = n) ∧
        (2 ^ 256 ≤ n → from_u256 s = .error "Invalid number"))) := by
  constructor
  · intro hpre
    have hbody : from_u256 s = (match parseNum hexDigitVal 16 (s.drop 2) with
        | none => .error "Invalid number"
        | some v => .ok (toBEBytes 32 v)) := by
      unfold from_u256
      rw [if_pos hpre]
    constructor
    · intro hinv
      rw [hbody, parseNum_none_of_invalid _ _ _ hinv]
    · intro n hn
      have hp := parseNum_some _ _ _ _ hn
      constructor
      · intro hlt
        refine ⟨?_, toBEBytes_length 32 n, ?_⟩
        · rw [hbody, hp, if_pos hlt]
        · refine beNat_toBEBytes 32 n ?_
          have h832 : (8 : Nat) * 32 = 256 := by norm_num
          rw [h832]
          exact hlt
      · intro hge
        rw [hbody, hp, if_neg (by omega)]
  · intro hpre
    have hbody : from_u256 s = (match parseNum decDigitVal 10 s with
        | none => .error "Invalid number"
        | some v => .ok (toBEBytes 32 v)) := by
      unfold from_u256
      rw [if_neg hpre]
    constructor
    · intro hinv
      rw [hbody, parseNum_none_of_invalid _ _ _ hinv]
    · intro n hn
      have hp := parseNum_some _ _ _ _ hn
      constructor
      · intro hlt
        refine ⟨?_, toBEBytes_length 32 n, ?_⟩
        · rw [hbody, hp, if_pos hlt]
        · refine beNat_toBEBytes 32 n ?_
          have h832 : (8 : Nat) * 32 = 256 := by norm_num
          rw [h832]
          exact hlt
      · intro hge
        rw [hbody, hp, if_neg (by omega)]

theorem from_u256_spec_witness :
    from_u256 ['0', 'x', '1', 'f'] = .ok (toBEBytes 32 31) ∧
    from_u256 ['3', '1'] = .ok (toBEBytes 32 31) ∧
    from_u256 ['3', 'z'] = .error "Invalid number" :=
  ⟨((((from_u256_spec ['0', 'x', '1', 'f']).1 (by decide)).2 31 (by decide)).1
      (by norm_num)).1,
    ((((from_u256_spec ['3', '1']).2 (by decide)).2 31 (by decide)).1 (by norm_num)).1,
    ((from_u256_spec ['3', 'z']).2 (by decide)).1 ⟨'z', by decide, by decide⟩⟩

/-! ## Structural helper lemmas -/

theorem take2_getD_zero {α : Type} (l : List α) (d : α) :
    (l.take 2).getD 0 d = l.getD 0 d := by
  match l with
  | [] => rfl
  | [a] => rfl
  | a :: b :: t => rfl

theorem take2_getD_one {α : Type} (l : List α) (d : α) :
    (l.take 2).getD 1 d = l.getD 1 d := by
  match l with
  | [] => rfl
  | [a] => rfl
  | a :: b :: t => rfl

theorem length_take2_lt {α : Type} (l : List α) :
    ((l.take 2).length < 2) ↔ (l.length < 2) := by
  rw [List.length_take]
  omega

theorem getD_map_take2 {α : Type} (l : List (List α)) (i : Nat) :
    ((l.map (fun x => x.take 2)).getD i []) = (l.getD i []).take 2 := by
  induction l generalizing i with
  | nil => simp
  | cons a t ih =>
    cases i with
    | zero => rfl
    | succ j =>
      simp only [List.map_cons, List.getD_cons_succ]
      exact ih j

theorem g1_from_bytes_ok_length {G1 : Type} (deser : List Nat → Except String G1)
    (elem : List (List Nat)) (x : G1) (h : g1_from_bytes deser elem = .ok x) :
    elem.length = 2 := by
  unfold g1_from_bytes at h
  by_cases hc : elem.length ≠ 2
  · rw [if_pos hc] at h
    simp at h
  · push_neg at hc
    exact hc

theorem g2_from_bytes_ok_shape {G2 : Type} (deser : List Nat → Except String G2)
    (elem : List (List (List Nat))) (x : G2) (h : g2_from_bytes deser elem = .ok x) :
    elem.length = 2 ∧ (elem.getD 0 []).length = 2 ∧ (elem.getD 1 []).length = 2 := by
  unfold g2_from_bytes at h
  by_cases hc : elem.length ≠ 2 ∨ (elem.getD 0 []).length ≠ 2 ∨ (elem.getD 1 []).length ≠ 2
  · rw [if_pos hc] at h
    simp at h
  · push_neg at hc
    exact hc

theorem from_u256_ok_length (s : List Char) (v : List Nat)
    (h : from_u256 s = .ok v) : v.length = 32 := by
  unfold from_u256 at h
  cases hp : (if s.take 2 = ['0', 'x'] then parseNum hexDigitVal 16 (s.drop 2)
      else parseNum decDigitVal 10 s) with
  | none => rw [hp] at h; simp at h
  | some n =>
    rw [hp] at h
    simp at h
    rw [← h]
    exact toBEBytes_length 32 n

theorem try_from_ok_inv (raw : RawProof) (s : Groth16Seal)
    (h : Groth16Seal.try_from raw = .ok s) :
    2 ≤ raw.pi_a.length ∧ 2 ≤ raw.pi_b.length ∧ 2 ≤ (raw.pi_b.getD 0 []).length ∧
    2 ≤ (raw.pi_b.getD 1 []).length ∧ 2 ≤ raw.pi_c.length ∧
    s.a.length = 2 ∧ s.b.length = 2 ∧ (∀ bi ∈ s.b, bi.length = 2) ∧
    s.c.length = 2 ∧ s.public = [] := by
  obtain ⟨sa, sb, sc, sp⟩ := s
  unfold Groth16Seal.try_from at h
  split at h
  · simp at h
  split at h
  · simp at h
  split at h
  · simp at h
  split at h
  · simp at h
  split at h
  · simp at h
  split at h
  · simp at h
  split at h
  · simp at h
  split at h
  · simp at h
  split at h
  · simp at h
  split at h
  · simp at h
  split at h
  · simp at h
  simp at h
  obtain ⟨ha, hb, hc, hp⟩ := h
  subst ha
  subst hb
  subst hc
  subst hp
  refine ⟨by omega, by omega, by omega, by omega, by omega, rfl, rfl, ?_, rfl, rfl⟩
  intro bi hbi
  simp at hbi
  rcases hbi with rfl | rfl <;> rfl

theorem from_seal_ok_inv {G1 G2 PVK Prep : Type} (E : ArkEnv G1 G2 PVK Prep)
    (sl : Groth16Seal) (md : List Nat) (g : Groth16)
    (h : Groth16.from_seal E sl md = .ok g) :
    ∃ pk pa pb pc root c1 c2 m1 m2 prep,
      E.pvk = .ok pk ∧
      g1_from_bytes E.g1_deserialize sl.a = .ok pa ∧
      g2_from_bytes E.g2_deserialize sl.b = .ok pb ∧
      g1_from_bytes E.g1_deserialize sl.c = .ok pc ∧
      digestFromHex ALLOWED_IDS_ROOT.toList = .ok root ∧
      split_digest root = .ok (c1, c2) ∧
      split_digest md = .ok (m1, m2) ∧
      E.prepare_inputs pk [c2, c1, m2, m1] = .ok prep ∧
      g = { pvk := E.serialize_pvk pk, proof := E.serialize_proof pa pb pc,
            prepared_inputs := E.serialize_prepared prep } := by
  unfold Groth16.from_seal at h
  split at h
  · simp at h
  rename_i pk e1
  split at h
  · simp at h
  rename_i pa e2
  split at h
  · simp at h
  rename_i pb e3
  split at h
  · simp at h
  rename_i pc e4
  split at h
  · simp at h
  rename_i root e5
  split at h
  · simp at h
  rename_i c1 c2 e6
  split at h
  · simp at h
  rename_i m1 m2 e7
  split at h
  · simp at h
  rename_i prep e8
  simp at h
  exact ⟨pk, pa, pb, pc, root, c1, c2, m1, m2, prep, e1, e2, e3, e4, e5, e6, e7, e8, h.symm⟩

/-! ## Claim theorems: points, seals and the instance -/

/-- Claim C3: on a 2-element input, `g1_from_bytes` deserializes the buffer
`reverse(coords[0]) ++ reverse(coords[1])`; on a 2×2 input, `g2_from_bytes`
deserializes `reverse(coords[0][1]) ++ reverse(coords[0][0]) ++
reverse(coords[1][1]) ++ reverse(coords[1][0])`, with the sub-index order
swapped within each pair. -/
theorem g_from_bytes_buffer_spec :
    (∀ (G1 : Type) (deser : List Nat → Except String G1) (elem : List (List Nat)),
      elem.length = 2 →
      g1_from_bytes deser elem =
        deser ((elem.getD 0 []).reverse ++ (elem.getD 1 []).reverse)) ∧
    (∀ (G2 : Type) (deser : List Nat → Except String G2) (elem : List (List (List Nat))),
      elem.length = 2 → (elem.getD 0 []).length = 2 → (elem.getD 1 []).length = 2 →
      g2_from_bytes deser elem =
        deser (((elem.getD 0 []).getD 1 []).reverse ++ ((elem.getD 0 []).getD 0 []).reverse
          ++ ((elem.getD 1 []).getD 1 []).reverse ++ ((elem.getD 1 []).getD 0 []).reverse)) := by
  constructor
  · intro G1 deser elem h
    unfold g1_from_bytes
    rw [if_neg (by omega)]
  · intro G2 deser elem h h0 h1
    unfold g2_from_bytes
    rw [if_neg (by push_neg; exact ⟨h, h0, h1⟩)]

theorem g_from_bytes_buffer_spec_witness :
    g1_from_bytes (fun buf => (Except.ok buf : Except String (List Nat))) [[1, 2], [3, 4]]
      = .ok [2, 1, 4, 3] ∧
    g2_from_bytes (fun buf => (Except.ok buf : Except String (List Nat)))
      [[[1, 2], [3, 4]], [[5, 6], [7, 8]]] = .ok [4, 3, 2, 1, 8, 7, 6, 5] :=
  ⟨(g_from_bytes_buffer_spec.1 (List Nat) _ [[1, 2], [3, 4]] (by decide)).trans rfl,
    (g_from_bytes_buffer_spec.2 (List Nat) _ [[[1, 2], [3, 4]], [[5, 6], [7, 8]]]
      (by decide) (by decide) (by decide)).trans rfl⟩

/-- Claim C4: a raw proof whose lists each hold at least 2 entries and whose
used entries parse converts to the seal with `a = [pi_a[0], pi_a[1]]`,
`b = [[pi_b[0][1], pi_b[0][0]], [pi_b[1][1], pi_b[1][0]]]` (inner pairs
swapped), `c = [pi_c[0], pi_c[1]]`, each coordinate a 32-byte array, and an
empty `public` field; a list with fewer than 2 entries makes the conversion
fail. -/
theorem try_from_spec (raw : RawProof) :
    (∀ a0 a1 b01 b00 b11 b10 c0 c1,
      2 ≤ raw.pi_a.length → 2 ≤ raw.pi_b.length → 2 ≤ (raw.pi_b.getD 0 []).length →
      2 ≤ (raw.pi_b.getD 1 []).length → 2 ≤ raw.pi_c.length →
      from_u256 (raw.pi_a.getD 0 []) = .ok a0 →
      from_u256 (raw.pi_a.getD 1 []) = .ok a1 →
      from_u256 ((raw.pi_b.getD 0 []).getD 1 []) = .ok b01 →
      from_u256 ((raw.pi_b.getD 0 []).getD 0 []) = .ok b00 →
      from_u256 ((raw.pi_b.getD 1 []).getD 1 []) = .ok b11 →
      from_u256 ((raw.pi_b.getD 1 []).getD 0 []) = .ok b10 →
      from_u256 (raw.pi_c.getD 0 []) = .ok c0 →
      from_u256 (raw.pi_c.getD 1 []) = .ok c1 →
      Groth16Seal.try_from raw =
        .ok { a := [a0, a1], b := [[b01, b00], [b11, b10]], c := [c0, c1], public := [] } ∧
      a0.length = 32 ∧ a1.length = 32 ∧ b01.length = 32 ∧ b00.length = 32 ∧
      b11.length = 32 ∧ b10.length = 32 ∧ c0.length = 32 ∧ c1.length = 32) ∧
    ((raw.pi_a.length < 2 ∨ raw.pi_b.length < 2 ∨ (raw.pi_b.getD 0 []).length < 2 ∨
      (raw.pi_b.getD 1 []).length < 2 ∨ raw.pi_c.length < 2) →
      ∃ e, Groth16Seal.try_from raw = .error e) := by
  constructor
  · intro a0 a1 b01 b00 b11 b10 c0 c1 l1 l2 l3 l4 l5 p1 p2 p3 p4 p5 p6 p7 p8
    have hna : ¬(raw.pi_a.length < 2) := by omega
    have hnb : ¬(raw.pi_b.length < 2 ∨ (raw.pi_b.getD 0 []).length < 2 ∨
        (raw.pi_b.getD 1 []).length < 2) := by
      push_neg
      omega
    have hnc : ¬(raw.pi_c.length < 2) := by omega
    refine ⟨?_, from_u256_ok_length _ _ p1, from_u256_ok_length _ _ p2,
      from_u256_ok_length _ _ p3, from_u256_ok_length _ _ p4,
      from_u256_ok_length _ _ p5, from_u256_ok_length _ _ p6,
      from_u256_ok_length _ _ p7, from_u256_ok_length _ _ p8⟩
    simp only [Groth16Seal.try_from, p1, p2, p3, p4, p5, p6, p7, p8, hna, hnb, hnc,
      if_false]
  · intro hshape
    cases hres : Groth16Seal.try_from raw with
    | error e => exact ⟨e, rfl⟩
    | ok s =>
      exfalso
      obtain ⟨l1, l2, l3, l4, l5, _⟩ := try_from_ok_inv raw s hres
      omega

theorem try_from_spec_witness :
    Groth16Seal.try_from rawW =
      .ok { a := [toBEBytes 32 1, toBEBytes 32 2]
            b := [[toBEBytes 32 4, toBEBytes 32 3], [toBEBytes 32 6, toBEBytes 32 5]]
            c := [toBEBytes 32 7, toBEBytes 32 8], public := [] } ∧
    ∃ e, Groth16Seal.try_from rawBad = .error e :=
  ⟨((try_from_spec rawW).1 (toBEBytes 32 1) (toBEBytes 32 2) (toBEBytes 32 4)
      (toBEBytes 32 3) (toBEBytes 32 6) (toBEBytes 32 5) (toBEBytes 32 7) (toBEBytes 32 8)
      (by decide) (by decide) (by decide) (by decide) (by decide)
      rfl rfl rfl rfl rfl rfl rfl rfl).1,
    (try_from_spec rawBad).2 (by decide)⟩

/-- Claim C10: the raw-proof conversion reads only indices 0 and 1 of each
list, silently ignoring extra entries (the conversion of a raw proof equals
the conversion of its truncation to those entries), and a successful result
always has `a` and `c` of length exactly 2, `b` of shape exactly 2×2, and an
empty `public` field. -/
theorem try_from_extra_entries (raw : RawProof) :
    Groth16Seal.try_from raw = Groth16Seal.try_from raw.truncate2 ∧
    (∀ s, Groth16Seal.try_from raw = .ok s →
      s.a.length = 2 ∧ s.b.length = 2 ∧ (∀ bi ∈ s.b, bi.length = 2) ∧
      s.c.length = 2 ∧ s.public = []) := by
  constructor
  · simp only [Groth16Seal.try_from, RawProof.truncate2, List.length_map,
      getD_map_take2, take2_getD_zero, take2_getD_one, length_take2_lt]
  · intro s hs
    obtain ⟨_, _, _, _, _, h6, h7, h8, h9, h10⟩ := try_from_ok_inv raw s hs
    exact ⟨h6, h7, h8, h9, h10⟩

theorem try_from_extra_entries_witness :
    Groth16Seal.try_from rawExtra = Groth16Seal.try_from rawExtra.truncate2 ∧
    (sealExtra.a.length = 2 ∧ sealExtra.b.length = 2 ∧
      (∀ bi ∈ sealExtra.b, bi.length = 2) ∧ sealExtra.c.length = 2 ∧
      sealExtra.public = []) :=
  ⟨(try_from_extra_entries rawExtra).1,
    (try_from_extra_entries rawExtra).2 sealExtra rfl⟩

/-- Claim C5: a seal whose `a` or `c` does not have exactly 2 coordinate
arrays, or whose `b` is not exactly a 2×2 nesting, makes `from_seal` fail,
regardless of the byte content of the coordinate arrays and of the external
collaborators. -/
theorem from_seal_malformed {G1 G2 PVK Prep : Type} (E : ArkEnv G1 G2 PVK Prep)
    (sl : Groth16Seal) (md : List Nat)
    (hshape : sl.a.length ≠ 2 ∨ sl.c.length ≠ 2 ∨ sl.b.length ≠ 2 ∨
      (sl.b.getD 0 []).length ≠ 2 ∨ (sl.b.getD 1 []).length ≠ 2) :
    ∃ e, Groth16.from_seal E sl md = .error e := by
  cases hres : Groth16.from_seal E sl md with
  | error e => exact ⟨e, rfl⟩
  | ok g =>
    exfalso
    obtain ⟨pk, pa, pb, pc, root, c1, c2, m1, m2, prep, h1, h2, h3, h4, _⟩ :=
      from_seal_ok_inv E sl md g hres
    have ha := g1_from_bytes_ok_length _ _ _ h2
    have hc := g1_from_bytes_ok_length _ _ _ h4
    obtain ⟨hb1, hb2, hb3⟩ := g2_from_bytes_ok_shape _ _ _ h3
    rcases hshape with h | h | h | h | h <;> exact h (by assumption)

theorem from_seal_malformed_witness :
    ((Groth16Seal.mk [] [] [] []).a.length ≠ 2 ∨
      (Groth16Seal.mk [] [] [] []).c.length ≠ 2 ∨
      (Groth16Seal.mk [] [] [] []).b.length ≠ 2 ∨
      ((Groth16Seal.mk [] [] [] []).b.getD 0 []).length ≠ 2 ∨
      ((Groth16Seal.mk [] [] [] []).b.getD 1 []).length ≠ 2) ∧
    ∃ e, Groth16.from_seal trivialEnv (Groth16Seal.mk [] [] [] [])
      (List.replicate 32 0) = .error e :=
  ⟨by decide,
    from_seal_malformed trivialEnv (Groth16Seal.mk [] [] [] [])
      (List.replicate 32 0) (by decide)⟩

/-- Claim C1: whenever `from_seal` succeeds, the public-input vector handed
to the prepared-input computation is exactly `[c2, c1, m2, m1]`, where
`(c1, c2) = split_digest(ALLOWED_IDS_ROOT)` and
`(m1, m2) = split_digest(metaDigest)`: each digest's second-produced half
precedes its first-produced half, and the constant root's pair precedes the
metadata pair. -/
theorem from_seal_public_inputs {G1 G2 PVK Prep : Type} (E : ArkEnv G1 G2 PVK Prep)
    (sl : Groth16Seal) (md : List Nat) (g : Groth16)
    (h : Groth16.from_seal E sl md = .ok g) :
    ∃ pk root c1 c2 m1 m2 prep,
      E.pvk = .ok pk ∧
      digestFromHex ALLOWED_IDS_ROOT.toList = .ok root ∧
      split_digest root = .ok (c1, c2) ∧
      split_digest md = .ok (m1, m2) ∧
      E.prepare_inputs pk [c2, c1, m2, m1] = .ok prep ∧
      g.prepared_inputs = E.serialize_prepared prep := by
  obtain ⟨pk, pa, pb, pc, root, c1, c2, m1, m2, prep, h1, h2, h3, h4, h5, h6, h7, h8, h9⟩ :=
    from_seal_ok_inv E sl md g h
  refine ⟨pk, root, c1, c2, m1, m2, prep, h1, h5, h6, h7, h8, ?_⟩
  rw [h9]

theorem from_seal_public_inputs_witness :
    Groth16.from_seal trivialEnv sealTriv (List.replicate 32 0) = .ok ⟨[], [], []⟩ ∧
    ∃ pk root c1 c2 m1 m2 prep,
      trivialEnv.pvk = .ok pk ∧
      digestFromHex ALLOWED_IDS_ROOT.toList = .ok root ∧
      split_digest root = .ok (c1, c2) ∧
      split_digest (List.replicate 32 0) = .ok (m1, m2) ∧
      trivialEnv.prepare_inputs pk [c2, c1, m2, m1] = .ok prep ∧
      (Groth16.mk [] [] []).prepared_inputs = trivialEnv.serialize_prepared prep :=
  ⟨rfl, from_seal_public_inputs trivialEnv sealTriv (List.replicate 32 0) ⟨[], [], []⟩ rfl⟩

/-- Claim C8: `digest` hashes the concatenation of the three stored buffers
in the fixed order `pvk ++ proof ++ prepared_inputs` through SHA-256, its
output has 32 bytes, and it is deterministic: instances with identical
stored bytes hash identically. -/
theorem digest_spec (H : List Nat → Sha256Out) (g g2 : Groth16) :
    Groth16.digest H g = (H (g.pvk ++ g.proof ++ g.prepared_inputs)).val ∧
    (Groth16.digest H g).length = 32 ∧
    (g.pvk = g2.pvk → g.proof = g2.proof → g.prepared_inputs = g2.prepared_inputs →
      Groth16.digest H g = Groth16.digest H g2) := by
  have h1 : Groth16.digest H g = (H (g.pvk ++ g.proof ++ g.prepared_inputs)).val := by
    unfold Groth16.digest Sha256Hasher.finalize Sha256Hasher.update Sha256Hasher.new
    simp
  refine ⟨h1, ?_, ?_⟩
  · rw [h1]
    exact (H _).property
  · intro e1 e2 e3
    unfold Groth16.digest
    rw [e1, e2, e3]

theorem digest_spec_witness :
    Groth16.digest (fun _ => ⟨List.replicate 32 0, by simp⟩) ⟨[1], [2], [3]⟩ =
      ((fun _ => (⟨List.replicate 32 0, by simp⟩ : Sha256Out)) ([1] ++ [2] ++ [3])).val ∧
    (Groth16.digest (fun _ => (⟨List.replicate 32 0, by simp⟩ : Sha256Out))
      ⟨[1], [2], [3]⟩).length = 32 ∧
    Groth16.digest (fun _ => (⟨List.replicate 32 0, by simp⟩ : Sha256Out)) ⟨[1], [2], [3]⟩ =
      Groth16.digest (fun _ => (⟨List.replicate 32 0, by simp⟩ : Sha256Out)) ⟨[1], [2], [3]⟩ := by
  have h := digest_spec (fun _ => (⟨List.replicate 32 0, by simp⟩ : Sha256Out))
    ⟨[1], [2], [3]⟩ ⟨[1], [2], [3]⟩
  exact ⟨h.1, h.2.1, h.2.2 rfl rfl rfl⟩

end RiscZeroGroth16
